import Mathlib

/-!
Verification of the document rendering pipeline of `url_to_pdf/pdf_generator.py`.

The Python source is shallowly embedded: pure fragments become Lean functions,
the filesystem is an explicit existence oracle `String → Bool`, the PDF backend
calls become event lists / call-trace lists, and Python exceptions become
`Option`/`Except` results.
-/

/-! ## Inline markup tokenization (`_write_formatted_text`, lines 519-541)

The Python code scans `html_text` with the regex
`<(/?)([biu])>|<a href="([^"]+)">|</a>` (case-insensitive, `finditer`),
turning the text between matches into `("text", s)` parts and each match into
a start/end part.  `finditer` finds leftmost non-overlapping matches, which is
equivalent to attempting a match at every position from the left and advancing
by one character on failure.  We embed that scanner on `List Char`.

A matched close-anchor whose group 0 is not literally `"</a>"` (e.g. `"</A>"`,
which the case-insensitive third alternative does match) falls through the
`if`/`elif` chain in the Python loop to `match.group(2).lower()` with
`group(2) = None`, raising `AttributeError`.  We model it as `MTok.err`.
-/

/-- One inline token, mirroring the `parts` entries built by
`_write_formatted_text` (`("text", s)`, `("start_b", None)`, ...). -/
inductive Tok
  | text (s : List Char)
  | startB | endB
  | startI | endI
  | startU | endU
  | startX (s : List Char)
  | endX (s : List Char)
  | startLink (url : List Char)
  | endLink
deriving DecidableEq, Repr

/-- Result of classifying one regex match: a token, or the `AttributeError`
raised for a case-variant close-anchor such as `</A>`. -/
inductive MTok
  | ok (t : Tok)
  | err
deriving DecidableEq, Repr

/-- Parse the regex fragment `([^"]+)">` : the characters up to the first `"`,
which must be followed immediately by `>`.  Returns the url characters and the
remainder after `">`. -/
def urlSpan : List Char → Option (List Char × List Char)
  | [] => none
  | c :: rest =>
    if c = '"' then
      match rest with
      | '>' :: r => some ([], r)
      | _ => none
    else (urlSpan rest).map (fun p => (c :: p.1, p.2))

/-- The characters the class `[biu]` matches under CPython's
`re.IGNORECASE` on Unicode patterns: the class is compiled to the lowered
set `{b, i, u}` plus the dotless `ı` (U+0131), added by sre's extra
case-equivalences for `i`, and an input character matches when its Unicode
simple lowercase is in that set — so exactly
b, B, i, I, u, U, ı (U+0131) and İ (U+0130, whose simple lowercase is `i`). -/
def matchesBiu (c : Char) : Bool :=
  c == 'b' || c == 'B' || c == 'i' || c == 'I' ||
    c == 'u' || c == 'U' || c == 'ı' || c == 'İ'

/-- Python `str.lower()` of a single matched `[biu]` letter: ASCII letters
map down, `ı` is already lowercase, and `İ` lowers to the two characters
`i` followed by COMBINING DOT ABOVE (U+0307). -/
def pyLowerChar (c : Char) : List Char :=
  if c = 'İ' then ['i', '\u0307'] else [c.toLower]

/-- The token for the part `"start_" + match.group(2).lower()`.  The writer
loop reacts only to `start_b` / `start_i` / `start_u`; for the Unicode case
variants `ı` and `İ` the lowered part name is different (`start_ı`,
`start_i` + combining dot) and the part is inert — still a structure token,
never text (`startX`). -/
def startTok (c : Char) : Tok :=
  if c = 'b' ∨ c = 'B' then .startB
  else if c = 'i' ∨ c = 'I' then .startI
  else if c = 'u' ∨ c = 'U' then .startU
  else .startX (pyLowerChar c)

/-- The token for the part `"end_" + match.group(2).lower()`. -/
def endTok (c : Char) : Tok :=
  if c = 'b' ∨ c = 'B' then .endB
  else if c = 'i' ∨ c = 'I' then .endI
  else if c = 'u' ∨ c = 'U' then .endU
  else .endX (pyLowerChar c)

/-- Try to match the regex alternatives after a leading `</`.
The first alternative `<(/?)([biu])>` (case-insensitive) yields an end token;
the third alternative `</a>` (case-insensitive) yields `end_link` only when
group 0 is literally `"</a>"`, and otherwise raises (`MTok.err`). -/
def matchClose : List Char → Option (MTok × List Char)
  | c :: d :: rest =>
    if d = '>' then
      if matchesBiu c then
        some (.ok (endTok c), rest)
      else if c = 'a' then
        some (.ok .endLink, rest)
      else if c.toLower = 'a' then
        some (.err, rest)
      else none
    else none
  | _ => none

/-- Try to match `a href="([^"]+)">` (case-insensitive letters) after a
leading `<` followed by a character lower-casing to `a`.  Argument is the list
after that first letter. -/
def matchHref : List Char → Option (MTok × List Char)
  | c2 :: c3 :: c4 :: c5 :: c6 :: c7 :: c8 :: rest =>
    if c2 = ' ' ∧ c3.toLower = 'h' ∧ c4.toLower = 'r' ∧ c5.toLower = 'e' ∧
        c6.toLower = 'f' ∧ c7 = '=' ∧ c8 = '"' then
      match urlSpan rest with
      | some (u, r) => if u.isEmpty then none else some (.ok (.startLink u), r)
      | none => none
    else none
  | _ => none

/-- Try to match the regex alternatives after a leading `<` whose next
character `c1` is not `/`: the start-tag branch of `<(/?)([biu])>`, then
`<a href="([^"]+)">`. -/
def matchOpen (c1 : Char) (l : List Char) : Option (MTok × List Char) :=
  if matchesBiu c1 then
    match l with
    | d :: rest => if d = '>' then some (.ok (startTok c1), rest) else none
    | [] => none
  else if c1.toLower = 'a' then matchHref l
  else none

/-- Attempt a match of `<(/?)([biu])>|<a href="([^"]+)">|</a>` at the head of
the input, returning the classified match and the remaining input. -/
def matchTag : List Char → Option (MTok × List Char)
  | [] => none
  | c :: rest =>
    if c = '<' then
      match rest with
      | [] => none
      | c1 :: l1 => if c1 = '/' then matchClose l1 else matchOpen c1 l1
    else none

theorem urlSpan_length : ∀ l u r, urlSpan l = some (u, r) → r.length < l.length := by
  intro l
  induction l with
  | nil => intro u r h; simp [urlSpan] at h
  | cons c rest ih =>
    intro u r h
    simp only [urlSpan] at h
    split at h
    · split at h
      · simp only [Option.some.injEq, Prod.mk.injEq] at h
        simp only [← h.2, List.length_cons]
        omega
      · simp at h
    · rw [Option.map_eq_some'] at h
      obtain ⟨⟨u', r'⟩, hspan, heq⟩ := h
      have := ih u' r' hspan
      simp only [Prod.mk.injEq] at heq
      simp only [← heq.2, List.length_cons]
      omega

theorem matchClose_length : ∀ l m r, matchClose l = some (m, r) → r.length < l.length := by
  intro l m r h
  cases l with
  | nil => simp [matchClose] at h
  | cons c l1 =>
    cases l1 with
    | nil => simp [matchClose] at h
    | cons d rest =>
      simp only [matchClose] at h
      split at h
      · split at h
        · simp only [Option.some.injEq, Prod.mk.injEq] at h
          simp only [← h.2, List.length_cons]; omega
        · split at h
          · simp only [Option.some.injEq, Prod.mk.injEq] at h
            simp only [← h.2, List.length_cons]; omega
          · split at h
            · simp only [Option.some.injEq, Prod.mk.injEq] at h
              simp only [← h.2, List.length_cons]; omega
            · simp at h
      · simp at h

theorem matchHref_length : ∀ l m r, matchHref l = some (m, r) → r.length < l.length := by
  intro l m r h
  cases l with
  | nil => simp [matchHref] at h
  | cons c2 l2 =>
    cases l2 with
    | nil => simp [matchHref] at h
    | cons c3 l3 =>
      cases l3 with
      | nil => simp [matchHref] at h
      | cons c4 l4 =>
        cases l4 with
        | nil => simp [matchHref] at h
        | cons c5 l5 =>
          cases l5 with
          | nil => simp [matchHref] at h
          | cons c6 l6 =>
            cases l6 with
            | nil => simp [matchHref] at h
            | cons c7 l7 =>
              cases l7 with
              | nil => simp [matchHref] at h
              | cons c8 rest =>
                simp only [matchHref] at h
                split at h
                · split at h
                  · rename_i u r' heq
                    split at h
                    · simp at h
                    · simp only [Option.some.injEq, Prod.mk.injEq] at h
                      have := urlSpan_length rest u r' heq
                      simp only [← h.2, List.length_cons]
                      omega
                  · simp at h
                · simp at h

theorem matchOpen_length : ∀ c1 l m r, matchOpen c1 l = some (m, r) → r.length < l.length + 1 := by
  intro c1 l m r h
  simp only [matchOpen] at h
  split at h
  · split at h
    · rename_i d rest
      split at h
      · simp only [Option.some.injEq, Prod.mk.injEq] at h
        simp only [← h.2, List.length_cons]
        omega
      · simp at h
    · simp at h
  · split at h
    · have := matchHref_length l m r h
      omega
    · simp at h

theorem matchTag_length : ∀ l m r, matchTag l = some (m, r) → r.length < l.length := by
  intro l m r h
  cases l with
  | nil => simp [matchTag] at h
  | cons c rest =>
    simp only [matchTag] at h
    split at h
    · split at h
      · simp at h
      · rename_i c1 l1
        split at h
        · have := matchClose_length l1 m r h
          simp only [List.length_cons]
          omega
        · have := matchOpen_length c1 l1 m r h
          simp only [List.length_cons]
          omega
    · simp at h

/-- Flush the accumulated (reversed) run of unmatched characters into a text
part, mirroring the `if match.start() > last_end` / `if last_end < len` guards
that emit a `("text", ...)` part only when it is nonempty. -/
def flushAcc (acc : List Char) : List Tok :=
  if acc.isEmpty then [] else [.text acc.reverse]

/-- The part-building loop of `_write_formatted_text` (lines 523-541):
scan left to right; at each position attempt a regex match; on a match flush
the pending text and emit the match's token; otherwise accumulate the
character into the pending text.  `none` models the `AttributeError` raised
for a case-variant close-anchor match such as `</A>`. -/
def tokenizeAux (acc : List Char) (l : List Char) : Option (List Tok) :=
  match l with
  | [] => some (flushAcc acc)
  | c :: rest =>
    match h : matchTag (c :: rest) with
    | some (.ok t, r) => (tokenizeAux [] r).map (fun ts => flushAcc acc ++ t :: ts)
    | some (.err, _) => none
    | none => tokenizeAux (c :: acc) rest
termination_by l.length
decreasing_by
· exact matchTag_length _ _ _ h
· simp only [List.length_cons]; omega

/-- The token stream (`parts`) built by `_write_formatted_text` for one
paragraph; `none` models the `AttributeError` crash. -/
def tokenize (l : List Char) : Option (List Tok) := tokenizeAux [] l

/-- A simplified scan emitting one single-character text token per unmatched
character (proof device; regroups `tokenize`'s text parts). -/
def scanT (l : List Char) : Option (List Tok) :=
  match l with
  | [] => some []
  | c :: rest =>
    match h : matchTag (c :: rest) with
    | some (.ok t, r) => (scanT r).map (fun ts => t :: ts)
    | some (.err, _) => none
    | none => (scanT rest).map (fun ts => .text [c] :: ts)
termination_by l.length
decreasing_by
· exact matchTag_length _ _ _ h
· simp only [List.length_cons]; omega

/-- Concatenation, in order, of the text parts of a token stream. -/
def concatTexts : List Tok → List Char
  | [] => []
  | .text s :: ts => s ++ concatTexts ts
  | _ :: ts => concatTexts ts

theorem scanT_nil : scanT [] = some [] := by
  rw [scanT]

theorem scanT_cons_ok (c : Char) (rest : List Char) (t : Tok) (r : List Char)
    (h : matchTag (c :: rest) = some (.ok t, r)) :
    scanT (c :: rest) = (scanT r).map (fun ts => t :: ts) := by
  rw [scanT, h]

theorem scanT_cons_err (c : Char) (rest : List Char) (r : List Char)
    (h : matchTag (c :: rest) = some (.err, r)) :
    scanT (c :: rest) = none := by
  rw [scanT, h]

theorem scanT_cons_none (c : Char) (rest : List Char)
    (h : matchTag (c :: rest) = none) :
    scanT (c :: rest) = (scanT rest).map (fun ts => .text [c] :: ts) := by
  rw [scanT, h]

theorem tokenizeAux_nil (acc : List Char) : tokenizeAux acc [] = some (flushAcc acc) := by
  rw [tokenizeAux]

theorem tokenizeAux_cons_ok (acc : List Char) (c : Char) (rest : List Char) (t : Tok)
    (r : List Char) (h : matchTag (c :: rest) = some (.ok t, r)) :
    tokenizeAux acc (c :: rest) = (tokenizeAux [] r).map (fun ts => flushAcc acc ++ t :: ts) := by
  rw [tokenizeAux, h]

theorem tokenizeAux_cons_err (acc : List Char) (c : Char) (rest : List Char)
    (r : List Char) (h : matchTag (c :: rest) = some (.err, r)) :
    tokenizeAux acc (c :: rest) = none := by
  rw [tokenizeAux, h]

theorem tokenizeAux_cons_none (acc : List Char) (c : Char) (rest : List Char)
    (h : matchTag (c :: rest) = none) :
    tokenizeAux acc (c :: rest) = tokenizeAux (c :: acc) rest := by
  rw [tokenizeAux, h]

/-- Whether a token is a `text` part. -/
def Tok.isTextTok : Tok → Bool
  | .text _ => true
  | _ => false

theorem concatTexts_append (xs ys : List Tok) :
    concatTexts (xs ++ ys) = concatTexts xs ++ concatTexts ys := by
  induction xs with
  | nil => simp [concatTexts]
  | cons t ts ih =>
    cases t <;> simp [concatTexts, ih]

theorem concatTexts_flushAcc (acc : List Char) : concatTexts (flushAcc acc) = acc.reverse := by
  unfold flushAcc
  split
  · rename_i hacc
    rw [List.isEmpty_iff] at hacc
    simp [hacc, concatTexts]
  · simp [concatTexts]

theorem concatTexts_cons_nonText (t : Tok) (ts : List Tok) (h : t.isTextTok = false) :
    concatTexts (t :: ts) = concatTexts ts := by
  cases t <;> simp [concatTexts] <;> simp [Tok.isTextTok] at h

theorem startTok_not_text (c : Char) : (startTok c).isTextTok = false := by
  unfold startTok
  split
  · rfl
  · split
    · rfl
    · split
      · rfl
      · rfl

theorem endTok_not_text (c : Char) : (endTok c).isTextTok = false := by
  unfold endTok
  split
  · rfl
  · split
    · rfl
    · split
      · rfl
      · rfl

theorem matchClose_not_text (l : List Char) (t : Tok) (r : List Char)
    (h : matchClose l = some (.ok t, r)) : t.isTextTok = false := by
  cases l with
  | nil => simp [matchClose] at h
  | cons c l1 =>
    cases l1 with
    | nil => simp [matchClose] at h
    | cons d rest =>
      simp only [matchClose] at h
      split at h
      · split at h
        · simp only [Option.some.injEq, Prod.mk.injEq, MTok.ok.injEq] at h
          rw [← h.1]
          exact endTok_not_text _
        · split at h
          · simp only [Option.some.injEq, Prod.mk.injEq, MTok.ok.injEq] at h
            rw [← h.1]
            rfl
          · split at h
            · simp at h
            · simp at h
      · simp at h

theorem matchHref_not_text (l : List Char) (t : Tok) (r : List Char)
    (h : matchHref l = some (.ok t, r)) : t.isTextTok = false := by
  unfold matchHref at h
  split at h
  · split at h
    · split at h
      · split at h
        · simp at h
        · simp only [Option.some.injEq, Prod.mk.injEq, MTok.ok.injEq] at h
          rw [← h.1]
          rfl
      · simp at h
    · simp at h
  · simp at h

theorem matchOpen_not_text (c1 : Char) (l : List Char) (t : Tok) (r : List Char)
    (h : matchOpen c1 l = some (.ok t, r)) : t.isTextTok = false := by
  simp only [matchOpen] at h
  split at h
  · split at h
    · split at h
      · simp only [Option.some.injEq, Prod.mk.injEq, MTok.ok.injEq] at h
        rw [← h.1]
        exact startTok_not_text _
      · simp at h
    · simp at h
  · split at h
    · exact matchHref_not_text l t r h
    · simp at h

theorem matchTag_not_text (l : List Char) (t : Tok) (r : List Char)
    (h : matchTag l = some (.ok t, r)) : t.isTextTok = false := by
  cases l with
  | nil => simp [matchTag] at h
  | cons c rest =>
    simp only [matchTag] at h
    split at h
    · split at h
      · simp at h
      · rename_i c1 l1
        split at h
        · exact matchClose_not_text l1 t r h
        · exact matchOpen_not_text c1 l1 t r h
    · simp at h

theorem matchTag_cons_ne_lt (c : Char) (l : List Char) (h : c ≠ '<') :
    matchTag (c :: l) = none := by
  simp [matchTag, h]

/-- Bridge: `tokenize` groups runs of unmatched characters into single text
parts, `scanT` emits them one character at a time; the concatenations of the
text parts agree (and they crash on the same inputs). -/
theorem tokenizeAux_texts :
    ∀ n l acc, l.length ≤ n →
      (tokenizeAux acc l).map concatTexts
        = (scanT l).map (fun ts => acc.reverse ++ concatTexts ts) := by
  intro n
  induction n with
  | zero =>
    intro l acc hl
    have : l = [] := List.length_eq_zero.mp (Nat.le_zero.mp hl)
    subst this
    simp [tokenizeAux_nil, scanT_nil, concatTexts_flushAcc, concatTexts]
  | succ n ih =>
    intro l acc hl
    cases l with
    | nil => simp [tokenizeAux_nil, scanT_nil, concatTexts_flushAcc, concatTexts]
    | cons c rest =>
      cases hm : matchTag (c :: rest) with
      | none =>
        rw [tokenizeAux_cons_none _ _ _ hm, scanT_cons_none _ _ hm]
        have hr : rest.length ≤ n := by
          simp only [List.length_cons] at hl
          omega
        rw [ih rest (c :: acc) hr]
        cases scanT rest with
        | none => rfl
        | some ts => simp [concatTexts, List.reverse_cons, List.append_assoc]
      | some mr =>
        obtain ⟨m, r⟩ := mr
        cases m with
        | err =>
          rw [tokenizeAux_cons_err _ _ _ _ hm, scanT_cons_err _ _ _ hm]
          rfl
        | ok t =>
          rw [tokenizeAux_cons_ok _ _ _ _ _ hm, scanT_cons_ok _ _ _ _ hm]
          have hrlen := matchTag_length _ _ _ hm
          have hr : r.length ≤ n := by
            simp only [List.length_cons] at hl hrlen
            omega
          have hbr := ih r [] hr
          have hnt := matchTag_not_text _ _ _ hm
          cases hs : scanT r with
          | none =>
            rw [hs] at hbr
            simp only [Option.map_none'] at hbr
            rw [Option.map_eq_none'] at hbr
            rw [Option.map_eq_none'.mpr hbr]
            simp
          | some ts =>
            rw [hs] at hbr
            simp only [Option.map_some', List.nil_append] at hbr
            have hbr' := Option.map_eq_some'.mp hbr
            obtain ⟨ps, hps, hct⟩ := hbr'
            rw [hps]
            simp only [Option.map_some']
            rw [concatTexts_append, concatTexts_flushAcc,
              concatTexts_cons_nonText _ _ hnt, concatTexts_cons_nonText _ _ hnt, hct]
            simp

theorem tokenize_texts (l : List Char) :
    (tokenize l).map concatTexts = (scanT l).map concatTexts := by
  have := tokenizeAux_texts l.length l [] (Nat.le_refl _)
  simpa [tokenize] using this

/-- Text-part concatenation of the simplified scan. -/
def sTexts (l : List Char) : Option (List Char) := (scanT l).map concatTexts

theorem sTexts_nil : sTexts [] = some [] := by
  simp [sTexts, scanT_nil, concatTexts]

theorem sTexts_cons_none (c : Char) (rest : List Char) (h : matchTag (c :: rest) = none) :
    sTexts (c :: rest) = (sTexts rest).map (fun s => c :: s) := by
  unfold sTexts
  rw [scanT_cons_none _ _ h]
  cases scanT rest <;> simp [concatTexts]

theorem sTexts_cons_ok (c : Char) (rest : List Char) (t : Tok) (r : List Char)
    (h : matchTag (c :: rest) = some (.ok t, r)) :
    sTexts (c :: rest) = sTexts r := by
  unfold sTexts
  rw [scanT_cons_ok _ _ _ _ h]
  have hnt := matchTag_not_text _ _ _ h
  cases scanT r <;> simp [concatTexts_cons_nonText _ _ hnt]

theorem sTexts_chunk (s : List Char) (hs : ∀ c ∈ s, c ≠ '<') :
    ∀ y, sTexts (s ++ y) = (sTexts y).map (fun res => s ++ res) := by
  induction s with
  | nil =>
    intro y
    cases h : sTexts y <;> simp [h]
  | cons c s2 ih =>
    intro y
    have hc : c ≠ '<' := hs c (List.mem_cons_self c s2)
    have hs2 : ∀ d ∈ s2, d ≠ '<' := fun d hd => hs d (List.mem_cons_of_mem c hd)
    rw [List.cons_append, sTexts_cons_none c _ (matchTag_cons_ne_lt c _ hc), ih hs2 y]
    cases sTexts y <;> simp

theorem urlSpan_append (u : List Char) (hu : ∀ c ∈ u, c ≠ '"') (rest : List Char) :
    urlSpan (u ++ '"' :: '>' :: rest) = some (u, rest) := by
  induction u with
  | nil => simp [urlSpan]
  | cons c u2 ih =>
    have hc : c ≠ '"' := hu c (List.mem_cons_self c u2)
    have hu2 : ∀ d ∈ u2, d ≠ '"' := fun d hd => hu d (List.mem_cons_of_mem c hd)
    rw [List.cons_append]
    simp only [urlSpan, if_neg hc, ih hu2, Option.map_some']

/-- A `<b>`/`<i>`/`<u>`-style open tag (any `[biu]`-matched letter,
including `ı`/`İ`) is matched. -/
theorem matchTag_open_styled (c : Char) (rest : List Char)
    (hbiu : matchesBiu c = true) :
    matchTag ('<' :: c :: '>' :: rest) = some (.ok (startTok c), rest) := by
  have hc : c ≠ '/' := by
    intro hc
    subst hc
    revert hbiu
    decide
  simp [matchTag, matchOpen, hc, hbiu]

/-- A `</b>`/`</i>`/`</u>`-style close tag (any `[biu]`-matched letter,
including `ı`/`İ`) is matched. -/
theorem matchTag_close_styled (c : Char) (rest : List Char)
    (hbiu : matchesBiu c = true) :
    matchTag ('<' :: '/' :: c :: '>' :: rest) = some (.ok (endTok c), rest) := by
  simp [matchTag, matchClose, hbiu]

/-- The literal lowercase close anchor `</a>` is matched as `end_link`. -/
theorem matchTag_close_anchor (rest : List Char) :
    matchTag ('<' :: '/' :: 'a' :: '>' :: rest) = some (.ok .endLink, rest) := by
  rfl

/-- A case-variant close anchor such as `</A>` is matched but its
classification raises (`MTok.err`): `group(0) == "</a>"` is case-sensitive
and `group(2)` is `None`. -/
theorem matchTag_close_anchor_case (c : Char) (rest : List Char)
    (ha : c.toLower = 'a') (hne : c ≠ 'a') :
    matchTag ('<' :: '/' :: c :: '>' :: rest) = some (.err, rest) := by
  have hbiu : matchesBiu c = false := by
    cases hm : matchesBiu c
    · rfl
    · exfalso
      simp only [matchesBiu, Bool.or_eq_true, beq_iff_eq, or_assoc] at hm
      rcases hm with h1 | h1 | h1 | h1 | h1 | h1 | h1 | h1 <;> subst h1 <;> revert ha <;> decide
  simp [matchTag, matchClose, hbiu, hne, ha]

/-- An `<a href="url">` open tag (any letter case on `a`, `href`) is matched. -/
theorem matchTag_open_anchor (ca c3 c4 c5 c6 : Char) (u rest : List Char)
    (ha : ca.toLower = 'a') (h3 : c3.toLower = 'h') (h4 : c4.toLower = 'r')
    (h5 : c5.toLower = 'e') (h6 : c6.toLower = 'f')
    (hu : u ≠ []) (huq : ∀ c ∈ u, c ≠ '"') :
    matchTag ('<' :: ca :: ' ' :: c3 :: c4 :: c5 :: c6 :: '=' :: '"' ::
        (u ++ '"' :: '>' :: rest))
      = some (.ok (.startLink u), rest) := by
  have hc : ca ≠ '/' := by
    intro hc
    subst hc
    revert ha
    decide
  have hbiu : matchesBiu ca = false := by
    cases hm : matchesBiu ca
    · rfl
    · exfalso
      simp only [matchesBiu, Bool.or_eq_true, beq_iff_eq, or_assoc] at hm
      rcases hm with h1 | h1 | h1 | h1 | h1 | h1 | h1 | h1 <;> subst h1 <;> revert ha <;> decide
  have hue : u.isEmpty = false := by
    cases u with
    | nil => exact absurd rfl hu
    | cons a b => rfl
  simp [matchTag, matchOpen, matchHref, hc, hbiu, ha, h3, h4, h5, h6,
    urlSpan_append u huq rest, hue]

/-- Side conditions under which `<` ++ nm ++ `>` is an *unrecognized* tag:
nonempty name, no `<`/`>`/space inside, and not a case-variant of the
single-letter style tags or of a recognized close tag. -/
def okOther (nm : List Char) : Prop :=
  nm ≠ [] ∧ (∀ c ∈ nm, c ≠ '<' ∧ c ≠ '>' ∧ c ≠ ' ') ∧
    (∀ c, nm = [c] → matchesBiu c = false) ∧
    (∀ c, nm = ['/', c] → matchesBiu c = false ∧ c.toLower ≠ 'a')

theorem matchHref_none_first (l : List Char) (h : ∀ c l2, l = c :: l2 → c ≠ ' ') :
    matchHref l = none := by
  unfold matchHref
  split
  · rename_i c2 c3 c4 c5 c6 c7 c8 rest
    have hc2 : c2 ≠ ' ' := h c2 _ rfl
    simp [hc2]
  · rfl

/-- No regex alternative matches at the start of an unrecognized tag. -/
theorem matchTag_other_none (nm : List Char) (ho : okOther nm) (y : List Char) :
    matchTag ('<' :: (nm ++ '>' :: y)) = none := by
  obtain ⟨hne, hmem, hsingle, hslash⟩ := ho
  cases nm with
  | nil => exact absurd rfl hne
  | cons c1 nmrest =>
    rw [List.cons_append]
    simp only [matchTag, if_pos rfl]
    by_cases hc1 : c1 = '/'
    · subst hc1
      rw [if_pos rfl]
      cases nmrest with
      | nil =>
        cases y with
        | nil => rfl
        | cons d y2 =>
          by_cases hd : d = '>'
          · subst hd; rfl
          · simp [matchClose, hd]
      | cons c2 nmrest2 =>
        rw [List.cons_append]
        cases nmrest2 with
        | nil =>
          have h4 := hslash c2 rfl
          have hc2a : c2 ≠ 'a' := by
            intro hh
            subst hh
            exact h4.2 (by decide)
          simp [matchClose, h4.1, h4.2, hc2a]
        | cons c3 nmrest3 =>
          have h3 : c3 ≠ '>' :=
            (hmem c3 (by simp)).2.1
          rw [List.cons_append]
          simp [matchClose, h3]
    · rw [if_neg hc1]
      simp only [matchOpen]
      cases hbiu : matchesBiu c1 with
      | true =>
        rw [if_pos rfl]
        cases nmrest with
        | nil =>
          rw [hsingle c1 rfl] at hbiu
          exact absurd hbiu (by decide)
        | cons c2 nmrest2 =>
          have h2 : c2 ≠ '>' := (hmem c2 (by simp)).2.1
          rw [List.cons_append]
          simp [h2]
      | false =>
        rw [if_neg Bool.false_ne_true]
        by_cases ha : c1.toLower = 'a'
        · rw [if_pos ha]
          apply matchHref_none_first
          intro c l2 heq
          cases nmrest with
          | nil =>
            rw [List.nil_append] at heq
            cases heq
            decide
          | cons c2 nmrest2 =>
            rw [List.cons_append] at heq
            cases heq
            exact (hmem _ (by simp)).2.2
        · rw [if_neg ha]
          rfl

/-- Inputs built from plain characters, balanced (possibly nested) style tags
`<b>`/`<i>`/`<u>` (case-insensitive), balanced anchors
`<a href="url">...</a>` (case-insensitive open tag, literal lowercase close
tag), and unrecognized tags.  `Tokenizable w t` states that `w` is such an
input and `t` is `w` with the recognized tags removed (unrecognized tags kept
verbatim). -/
inductive Tokenizable : List Char → List Char → Prop
  | nil : Tokenizable [] []
  | ch (c : Char) (w t : List Char) :
      c ≠ '<' → Tokenizable w t → Tokenizable (c :: w) (c :: t)
  | styled (copen cclose : Char) (w1 t1 w2 t2 : List Char) :
      matchesBiu copen = true → matchesBiu cclose = true →
      Tokenizable w1 t1 → Tokenizable w2 t2 →
      Tokenizable ('<' :: copen :: '>' :: (w1 ++ '<' :: '/' :: cclose :: '>' :: w2))
        (t1 ++ t2)
  | anchor (ca c3 c4 c5 c6 : Char) (u w1 t1 w2 t2 : List Char) :
      ca.toLower = 'a' → c3.toLower = 'h' → c4.toLower = 'r' →
      c5.toLower = 'e' → c6.toLower = 'f' →
      u ≠ [] → (∀ c ∈ u, c ≠ '"') →
      Tokenizable w1 t1 → Tokenizable w2 t2 →
      Tokenizable ('<' :: ca :: ' ' :: c3 :: c4 :: c5 :: c6 :: '=' :: '"' ::
          (u ++ '"' :: '>' :: (w1 ++ '<' :: '/' :: 'a' :: '>' :: w2)))
        (t1 ++ t2)
  | other (nm w t : List Char) :
      okOther nm → Tokenizable w t →
      Tokenizable ('<' :: (nm ++ '>' :: w)) ('<' :: (nm ++ '>' :: t))

/-- Inputs containing only well-balanced literal `<b>`, `<i>`,
`<a href="url">` tags (the tags exactly as the claim spells them); the second
component is the input with those tags stripped. -/
inductive BalancedBIA : List Char → List Char → Prop
  | nil : BalancedBIA [] []
  | ch (c : Char) (w t : List Char) :
      c ≠ '<' → BalancedBIA w t → BalancedBIA (c :: w) (c :: t)
  | bold (w1 t1 w2 t2 : List Char) :
      BalancedBIA w1 t1 → BalancedBIA w2 t2 →
      BalancedBIA ('<' :: 'b' :: '>' :: (w1 ++ '<' :: '/' :: 'b' :: '>' :: w2))
        (t1 ++ t2)
  | ital (w1 t1 w2 t2 : List Char) :
      BalancedBIA w1 t1 → BalancedBIA w2 t2 →
      BalancedBIA ('<' :: 'i' :: '>' :: (w1 ++ '<' :: '/' :: 'i' :: '>' :: w2))
        (t1 ++ t2)
  | link (u w1 t1 w2 t2 : List Char) :
      u ≠ [] → (∀ c ∈ u, c ≠ '"') →
      BalancedBIA w1 t1 → BalancedBIA w2 t2 →
      BalancedBIA ('<' :: 'a' :: ' ' :: 'h' :: 'r' :: 'e' :: 'f' :: '=' :: '"' ::
          (u ++ '"' :: '>' :: (w1 ++ '<' :: '/' :: 'a' :: '>' :: w2)))
        (t1 ++ t2)

theorem balancedBIA_tokenizable (w t : List Char) (h : BalancedBIA w t) :
    Tokenizable w t := by
  induction h with
  | nil => exact .nil
  | ch c w t hc _ ih => exact .ch c w t hc ih
  | bold w1 t1 w2 t2 _ _ ih1 ih2 =>
    exact .styled 'b' 'b' w1 t1 w2 t2 (by decide) (by decide) ih1 ih2
  | ital w1 t1 w2 t2 _ _ ih1 ih2 =>
    exact .styled 'i' 'i' w1 t1 w2 t2 (by decide) (by decide) ih1 ih2
  | link u w1 t1 w2 t2 hu huq _ _ ih1 ih2 =>
    exact .anchor 'a' 'h' 'r' 'e' 'f' u w1 t1 w2 t2 rfl rfl rfl rfl rfl hu huq ih1 ih2

/-- Core induction: on a tokenizable prefix the scan's text-part
concatenation strips exactly the recognized tags. -/
theorem tokenizable_sTexts (w t : List Char) (h : Tokenizable w t) :
    ∀ y, sTexts (w ++ y) = (sTexts y).map (fun s => t ++ s) := by
  induction h with
  | nil =>
    intro y
    cases hy : sTexts y <;> simp [hy]
  | ch c w1 t1 hc _ ih =>
    intro y
    rw [List.cons_append, sTexts_cons_none c _ (matchTag_cons_ne_lt c _ hc), ih y]
    cases sTexts y <;> simp
  | styled copen cclose w1 t1 w2 t2 hbiu hbiu2 _ _ ih1 ih2 =>
    intro y
    simp only [List.cons_append, List.append_assoc]
    rw [sTexts_cons_ok _ _ _ _ (matchTag_open_styled copen _ hbiu)]
    rw [ih1 ('<' :: '/' :: cclose :: '>' :: (w2 ++ y))]
    rw [sTexts_cons_ok _ _ _ _ (matchTag_close_styled cclose _ hbiu2)]
    rw [ih2 y]
    cases sTexts y <;> simp [List.append_assoc]
  | anchor ca c3 c4 c5 c6 u w1 t1 w2 t2 ha h3 h4 h5 h6 hu huq _ _ ih1 ih2 =>
    intro y
    simp only [List.cons_append, List.append_assoc]
    rw [sTexts_cons_ok _ _ _ _
      (matchTag_open_anchor ca c3 c4 c5 c6 u _ ha h3 h4 h5 h6 hu huq)]
    rw [ih1 ('<' :: '/' :: 'a' :: '>' :: (w2 ++ y))]
    rw [sTexts_cons_ok _ _ _ _ (matchTag_close_anchor (w2 ++ y))]
    rw [ih2 y]
    cases sTexts y <;> simp [List.append_assoc]
  | other nm w1 t1 ho _ ih =>
    intro y
    have hmem : ∀ c ∈ nm, c ≠ '<' := fun c hc => (ho.2.1 c hc).1
    simp only [List.cons_append, List.append_assoc]
    rw [sTexts_cons_none _ _ (matchTag_other_none nm ho (w1 ++ y))]
    rw [sTexts_chunk nm hmem ('>' :: (w1 ++ y))]
    rw [sTexts_cons_none '>' _ (matchTag_cons_ne_lt '>' _ (by decide))]
    rw [ih y]
    cases sTexts y <;> simp [List.append_assoc]

/-- C2: for every input in which every literal `<b>`, `<i>`, `<a href="...">`
tag is well balanced (the `BalancedBIA` grammar), the concatenation, in
order, of the text parts produced by the `_write_formatted_text`
tokenization equals the input with those tags removed; all other characters,
including surrounding whitespace, are preserved verbatim. -/
theorem claim_c2_balanced_text_concat (w t : List Char) (h : BalancedBIA w t) :
    (tokenize w).map concatTexts = some t := by
  have h1 := tokenizable_sTexts w t (balancedBIA_tokenizable w t h) []
  rw [List.append_nil, sTexts_nil] at h1
  rw [tokenize_texts]
  simpa [sTexts] using h1

/-- Witness for C2 at the concrete input `x<b>y</b>z`. -/
theorem claim_c2_balanced_text_concat_witness :
    (tokenize ('x' :: '<' :: 'b' :: '>' :: 'y' :: '<' :: '/' :: 'b' :: '>' :: 'z' :: [])).map
        concatTexts
      = some ('x' :: 'y' :: 'z' :: []) :=
  claim_c2_balanced_text_concat _ _
    (.ch 'x' _ _ (by decide)
      (.bold ['y'] ['y'] ['z'] ['z']
        (.ch 'y' [] [] (by decide) .nil)
        (.ch 'z' [] [] (by decide) .nil)))

/-- C7 counterexample: the underline tag `<u>` is not among the tags the
claim lists as recognized, yet the tokenizer emits structure tokens for it
(the regex class is `[biu]`), so its characters do not appear in the
text-token output: `<u>x</u>` tokenizes to `start_u, text "x", end_u` with
text concatenation `x`. -/
theorem claim_c7_counterexample :
    tokenize ('<' :: 'u' :: '>' :: 'x' :: '<' :: '/' :: 'u' :: '>' :: [])
        = some (Tok.startU :: Tok.text ['x'] :: Tok.endU :: []) ∧
      (tokenize ('<' :: 'u' :: '>' :: 'x' :: '<' :: '/' :: 'u' :: '>' :: [])).map concatTexts
        = some ('x' :: []) := by
  have h1 : matchTag ('<' :: 'u' :: '>' :: 'x' :: '<' :: '/' :: 'u' :: '>' :: [])
      = some (.ok .startU, 'x' :: '<' :: '/' :: 'u' :: '>' :: []) := by decide
  have h2 : matchTag ('x' :: '<' :: '/' :: 'u' :: '>' :: []) = none := by decide
  have h3 : matchTag ('<' :: '/' :: 'u' :: '>' :: []) = some (.ok .endU, []) := by decide
  have h4 : tokenize ('<' :: 'u' :: '>' :: 'x' :: '<' :: '/' :: 'u' :: '>' :: [])
      = some (Tok.startU :: Tok.text ['x'] :: Tok.endU :: []) := by
    rw [tokenize, tokenizeAux_cons_ok _ _ _ _ _ h1, tokenizeAux_cons_none _ _ _ h2,
      tokenizeAux_cons_ok _ _ _ _ _ h3, tokenizeAux_nil]
    rfl
  exact ⟨h4, by rw [h4]; rfl⟩

/-- C7 amended: any tag other than the recognized bold, italic, underline
and anchor tags (`<b>`, `</b>`, `<i>`, `</i>`, `<u>`, `</u>`,
`<a href="...">`, `</a>`, matched case-insensitively per `re.IGNORECASE` —
which for the `[biu]` letters also accepts the Unicode case variants `İ`
U+0130 and `ı` U+0131 of `i`) is not tokenized as structure: its characters
are part of a text token and appear verbatim in the text-token output (the
`Tokenizable` grammar keeps unrecognized tags in the stripped text, and its
`okOther` side conditions exclude exactly the recognized single-letter
variants). -/
theorem claim_c7_amended_unrecognized_tags_verbatim (w t : List Char)
    (h : Tokenizable w t) :
    (tokenize w).map concatTexts = some t := by
  have h1 := tokenizable_sTexts w t h []
  rw [List.append_nil, sTexts_nil] at h1
  rw [tokenize_texts]
  simpa [sTexts] using h1

/-- Witness for the amended C7 at the concrete input `a<span>b`: the
unrecognized tag `<span>` appears verbatim in the text output. -/
theorem claim_c7_amended_unrecognized_tags_verbatim_witness :
    (tokenize ('a' :: '<' :: 's' :: 'p' :: 'a' :: 'n' :: '>' :: 'b' :: [])).map concatTexts
      = some ('a' :: '<' :: 's' :: 'p' :: 'a' :: 'n' :: '>' :: 'b' :: []) :=
  claim_c7_amended_unrecognized_tags_verbatim _ _
    (.ch 'a' _ _ (by decide)
      (.other ['s', 'p', 'a', 'n'] ['b'] ['b']
        ⟨by decide, by decide,
          fun c hc => by simp at hc,
          fun c hc => by simp at hc⟩
        (.ch 'b' [] [] (by decide) .nil)))

/-- C8: evaluation of the tokenizer at the failing input `x</A>`.  The
case-insensitive regex matches the unbalanced close anchor `</A>`, the
case-sensitive comparison `match.group(0) == "</a>"` fails, and the handler
reaches `match.group(2).lower()` with `group(2) = None`, raising
`AttributeError` — so this unbalanced input yields no token stream at all,
contradicting the claim that unbalanced input never raises. -/
theorem claim_c8_uppercase_close_anchor_raises :
    tokenize ('x' :: '<' :: '/' :: 'A' :: '>' :: []) = none := by
  have h1 : matchTag ('x' :: '<' :: '/' :: 'A' :: '>' :: []) = none := by decide
  have h2 : matchTag ('<' :: '/' :: 'A' :: '>' :: []) = some (.err, []) := by decide
  rw [tokenize, tokenizeAux_cons_none _ _ _ h1, tokenizeAux_cons_err _ _ _ _ h2]

/-! ## Document renderer layout (`generate_pdf`, lines 472-513)

`generate_pdf` copies the image list, pops the first image as the lead image,
computes `image_interval = max(1, paragraph_count // (len(images_to_insert)+1))`
(or `0` when no images remain), then iterates the content blocks: headings are
written directly; every other block is written as a paragraph and increments
`paragraph_idx`, and when images remain, the interval is positive and
`paragraph_idx % image_interval == 0` the next image is popped and inserted.
Leftover images are appended after the loop.  `_insert_image` (lines 581-595)
wraps its whole body in `try: ... except Exception: pass`, so a failing image
produces no output and the loop continues; we model the failure of the
backend image call by an oracle `fails : α → Bool`.

We record the render as a list of events: the lead image placement, image
placements, and content-block writes. -/

/-- A content block as delivered by the extractor (`ExtractedArticle.content`):
a heading with a level, or a paragraph with plain text and optional inline
HTML. -/
inductive Block
  | heading (level : Nat) (text : String)
  | paragraph (text : String) (html : Option String)
deriving DecidableEq, Repr

/-- `b.type == "paragraph"`. -/
def isParagraphB : Block → Bool
  | .paragraph _ _ => true
  | .heading _ _ => false

/-- `paragraph_count = sum(1 for b in content_blocks if b.type == "paragraph")`. -/
def paragraphCount (bs : List Block) : Nat := bs.countP isParagraphB

/-- One observable rendering event of `generate_pdf`. -/
inductive Event (α : Type)
  | lead (a : α)
  | img (a : α)
  | blockEv (b : Block)
deriving DecidableEq, Repr

/-- The body of `_insert_image`: the sizing and backend `pdf.image` call,
which may raise (oracle `fails`). -/
def insertImageBody {α : Type} (fails : α → Bool) (a : α) : Except Unit (List (Event α)) :=
  if fails a then .error () else .ok [Event.img a]

/-- `_insert_image`: the body wrapped in `try: ... except Exception: pass` —
an error is swallowed and no event is produced. -/
def insertImageEv {α : Type} (fails : α → Bool) (a : α) : List (Event α) :=
  match insertImageBody fails a with
  | .ok evs => evs
  | .error _ => []

/-- The lead-image insertion (same `_insert_image`, recorded as the lead). -/
def insertLeadEv {α : Type} (fails : α → Bool) (a : α) : List (Event α) :=
  match insertImageBody fails a with
  | .ok _ => [Event.lead a]
  | .error _ => []

/-- The content-block loop of `generate_pdf` (lines 487-511), including the
trailing `for img in images_to_insert: _insert_image(...)`. -/
def layoutLoop {α : Type} (fails : α → Bool) :
    List Block → List α → Nat → Nat → List (Event α)
  | [], imgs, _, _ => imgs.flatMap (fun a => insertImageEv fails a)
  | .heading lv tx :: bs, imgs, interval, pidx =>
      Event.blockEv (.heading lv tx) :: layoutLoop fails bs imgs interval pidx
  | .paragraph tx hh :: bs, [], interval, pidx =>
      Event.blockEv (.paragraph tx hh) :: layoutLoop fails bs [] interval (pidx + 1)
  | .paragraph tx hh :: bs, a :: as, interval, pidx =>
      if 0 < interval ∧ (pidx + 1) % interval = 0 then
        Event.blockEv (.paragraph tx hh) ::
          (insertImageEv fails a ++ layoutLoop fails bs as interval (pidx + 1))
      else
        Event.blockEv (.paragraph tx hh) :: layoutLoop fails bs (a :: as) interval (pidx + 1)

/-- The image-placement portion of `generate_pdf`: pop the lead image, compute
the interval, run the block loop, append leftovers. -/
def generatePdfRun {α : Type} (fails : α → Bool) (blocks : List Block)
    (images : List α) : List (Event α) :=
  match images with
  | [] => layoutLoop fails blocks [] 0 0
  | leadImg :: rest =>
      insertLeadEv fails leadImg ++
        layoutLoop fails blocks rest
          (if rest.isEmpty then 0 else max 1 (paragraphCount blocks / (rest.length + 1))) 0

/-- The render when every image loads successfully. -/
def generatePdfLayout {α : Type} (blocks : List Block) (images : List α) :
    List (Event α) :=
  generatePdfRun (fun _ => false) blocks images

/-- The content blocks written, in order. -/
def blockEvents {α : Type} (evs : List (Event α)) : List Block :=
  evs.filterMap (fun e =>
    match e with
    | .blockEv b => some b
    | _ => none)

/-- The images placed (lead first), in order. -/
def imgValues {α : Type} (evs : List (Event α)) : List α :=
  evs.filterMap (fun e =>
    match e with
    | .lead a => some a
    | .img a => some a
    | _ => none)

/-- For each non-lead image placement, the number of paragraph blocks written
before it (`p` is the running count). -/
def imgParaCounts {α : Type} : List (Event α) → Nat → List Nat
  | [], _ => []
  | .img _ :: es, p => p :: imgParaCounts es p
  | .blockEv (.paragraph _ _) :: es, p => imgParaCounts es (p + 1)
  | .blockEv (.heading _ _) :: es, p => imgParaCounts es p
  | .lead _ :: es, p => imgParaCounts es p

/-- The 1-based paragraph ordinals of the paragraphs of `bs`, continuing from
a running count `p`. -/
def paraPositions (p : Nat) : List Block → List Nat
  | [] => []
  | .heading _ _ :: bs => paraPositions p bs
  | .paragraph _ _ :: bs => (p + 1) :: paraPositions (p + 1) bs

theorem imgParaCounts_flatMap {α : Type} (imgs : List α) (p : Nat) :
    imgParaCounts (imgs.flatMap (fun a => [Event.img a])) p
      = List.replicate imgs.length p := by
  induction imgs with
  | nil => simp [imgParaCounts]
  | cons a as ih =>
    have hstep : (a :: as).flatMap (fun a => [Event.img a])
        = Event.img a :: as.flatMap (fun a => [Event.img a]) := rfl
    rw [hstep]
    show p :: imgParaCounts (as.flatMap fun a => [Event.img a]) p = _
    rw [ih, List.length_cons, List.replicate_succ]

theorem layoutLoop_counts {α : Type} (i : Nat) (hi : 0 < i) :
    ∀ (bs : List Block) (imgs : List α) (p : Nat),
      imgParaCounts (layoutLoop (fun _ => false) bs imgs i p) p
        = ((paraPositions p bs).filter (fun q => q % i == 0)).take imgs.length
          ++ List.replicate
              (imgs.length - ((paraPositions p bs).filter (fun q => q % i == 0)).length)
              (p + paragraphCount bs) := by
  intro bs
  induction bs with
  | nil =>
    intro imgs p
    have hins : ∀ a : α, insertImageEv (fun _ => false) a = [Event.img a] := by
      intro a
      rfl
    simp only [layoutLoop, paraPositions, paragraphCount, List.countP_nil, List.filter_nil,
      List.take_nil, List.length_nil, Nat.sub_zero, Nat.add_zero, List.nil_append]
    rw [show (fun a : α => insertImageEv (fun _ => false) a) = (fun a => [Event.img a]) from
      funext hins]
    exact imgParaCounts_flatMap imgs p
  | cons b bs ih =>
    intro imgs p
    cases b with
    | heading lv tx =>
      simp only [layoutLoop, imgParaCounts, paraPositions]
      rw [ih imgs p]
      have : paragraphCount (Block.heading lv tx :: bs) = paragraphCount bs := by
        simp [paragraphCount, List.countP_cons, isParagraphB]
      rw [this]
    | paragraph tx hh =>
      have hcount : paragraphCount (Block.paragraph tx hh :: bs) = paragraphCount bs + 1 := by
        simp [paragraphCount, List.countP_cons, isParagraphB]
      cases imgs with
      | nil =>
        simp only [layoutLoop, imgParaCounts]
        rw [ih [] (p + 1)]
        simp
      | cons a as =>
        by_cases hmod : (p + 1) % i = 0
        · have hcond : 0 < i ∧ (p + 1) % i = 0 := ⟨hi, hmod⟩
          simp only [layoutLoop, if_pos hcond]
          have hins : insertImageEv (fun _ : α => false) a = [Event.img a] := rfl
          rw [hins]
          simp only [imgParaCounts, List.cons_append, List.singleton_append, List.nil_append]
          have hnil : ∀ l : List (Event α), ([] : List (Event α)).append l = l := fun l => rfl
          rw [hnil, ih as (p + 1)]
          simp only [paraPositions, List.filter_cons]
          have hbeq : ((p + 1) % i == 0) = true := by
            simp [hmod]
          rw [hbeq]
          simp only [if_true, List.take_succ_cons, List.length_cons, hcount]
          have harith : p + (paragraphCount bs + 1) = p + 1 + paragraphCount bs := by omega
          have harith2 : as.length + 1 -
              (((paraPositions (p + 1) bs).filter (fun q => q % i == 0)).length + 1)
              = as.length - ((paraPositions (p + 1) bs).filter (fun q => q % i == 0)).length := by
            omega
          rw [harith, harith2]
          simp
        · have hcond : ¬(0 < i ∧ (p + 1) % i = 0) := by
            intro hc
            exact hmod hc.2
          simp only [layoutLoop, if_neg hcond]
          simp only [imgParaCounts]
          rw [ih (a :: as) (p + 1)]
          simp only [paraPositions, List.filter_cons]
          have hbeq : ((p + 1) % i == 0) = false := by
            simp [hmod]
          rw [hbeq]
          rw [hcount]
          have : p + (paragraphCount bs + 1) = p + 1 + paragraphCount bs := by omega
          rw [this]
          simp

theorem insertImageEv_eq {α : Type} (fails : α → Bool) (a : α) :
    insertImageEv fails a = if fails a then [] else [Event.img a] := by
  unfold insertImageEv insertImageBody
  cases hfa : fails a <;> simp [hfa]

theorem insertLeadEv_eq {α : Type} (fails : α → Bool) (a : α) :
    insertLeadEv fails a = if fails a then [] else [Event.lead a] := by
  unfold insertLeadEv insertImageBody
  cases hfa : fails a <;> simp [hfa]

theorem layoutLoop_counts_noImgs {α : Type} :
    ∀ (bs : List Block) (i p : Nat),
      imgParaCounts (layoutLoop (fun _ : α => false) bs [] i p) p = [] := by
  intro bs
  induction bs with
  | nil => intro i p; simp [layoutLoop, imgParaCounts]
  | cons b bs ih =>
    intro i p
    cases b with
    | heading lv tx => simp only [layoutLoop, imgParaCounts]; exact ih i p
    | paragraph tx hh => simp only [layoutLoop, imgParaCounts]; exact ih i (p + 1)

theorem paraPositions_eq :
    ∀ (bs : List Block) (p : Nat),
      paraPositions p bs = (List.range (paragraphCount bs)).map (fun t => p + (t + 1)) := by
  intro bs
  induction bs with
  | nil => intro p; simp [paraPositions, paragraphCount]
  | cons b bs ih =>
    intro p
    cases b with
    | heading lv tx =>
      rw [show paragraphCount (Block.heading lv tx :: bs) = paragraphCount bs from by
        simp [paragraphCount, List.countP_cons, isParagraphB]]
      simp only [paraPositions]
      exact ih p
    | paragraph tx hh =>
      rw [show paragraphCount (Block.paragraph tx hh :: bs) = paragraphCount bs + 1 from by
        simp [paragraphCount, List.countP_cons, isParagraphB]]
      have hfun : ((fun t => p + (t + 1)) ∘ Nat.succ) = (fun t => p + 1 + (t + 1)) := by
        funext t
        simp only [Function.comp_apply, Nat.succ_eq_add_one]
        omega
      show (p + 1) :: paraPositions (p + 1) bs = _
      rw [ih (p + 1), List.range_succ_eq_map, List.map_cons, List.map_map, hfun]

theorem filter_range_mod (i : Nat) (hi : 0 < i) :
    ∀ N : Nat,
      ((List.range N).map (fun t => t + 1)).filter (fun q => q % i == 0)
        = (List.range (N / i)).map (fun j => (j + 1) * i) := by
  intro N
  induction N with
  | zero => simp
  | succ N ih =>
    rw [List.range_succ, List.map_append, List.filter_append, ih]
    by_cases hdvd : (N + 1) % i = 0
    · have hidvd : i ∣ N + 1 := Nat.dvd_of_mod_eq_zero hdvd
      have hsucc : (N + 1) / i = N / i + 1 := by
        rw [Nat.succ_div, if_pos hidvd]
      rw [hsucc, List.range_succ, List.map_append]
      have hval : (N / i + 1) * i = N + 1 := by
        have h1 : (N + 1) / i * i = N + 1 := Nat.div_mul_cancel hidvd
        rw [hsucc] at h1
        exact h1
      simp [hdvd, hval]
    · have hndvd : ¬ i ∣ N + 1 := by
        intro hc
        obtain ⟨k, hk⟩ := hc
        apply hdvd
        simp [hk, Nat.mul_mod_right]
      have hsucc : (N + 1) / i = N / i := by
        rw [Nat.succ_div, if_neg hndvd]
        omega
      rw [hsucc]
      simp [hdvd]

theorem blockEvents_append {α : Type} (xs ys : List (Event α)) :
    blockEvents (xs ++ ys) = blockEvents xs ++ blockEvents ys := by
  simp [blockEvents, List.filterMap_append]

theorem imgValues_append {α : Type} (xs ys : List (Event α)) :
    imgValues (xs ++ ys) = imgValues xs ++ imgValues ys := by
  simp [imgValues, List.filterMap_append]

theorem blockEvents_flatMap_img {α : Type} (fails : α → Bool) (imgs : List α) :
    blockEvents (imgs.flatMap (fun a => insertImageEv fails a)) = [] := by
  induction imgs with
  | nil => simp [blockEvents]
  | cons a as ih =>
    rw [List.flatMap_cons, blockEvents_append, ih, insertImageEv_eq]
    cases fails a <;> simp [blockEvents]

theorem imgValues_flatMap_img {α : Type} (fails : α → Bool) (imgs : List α) :
    imgValues (imgs.flatMap (fun a => insertImageEv fails a))
      = imgs.filter (fun a => !fails a) := by
  induction imgs with
  | nil => simp [imgValues]
  | cons a as ih =>
    rw [List.flatMap_cons, imgValues_append, ih, insertImageEv_eq, List.filter_cons]
    cases hfa : fails a <;> simp [imgValues]

theorem blockEvents_cons_block {α : Type} (b : Block) (es : List (Event α)) :
    blockEvents (Event.blockEv b :: es) = b :: blockEvents es := by
  simp [blockEvents, List.filterMap_cons]

theorem imgValues_cons_block {α : Type} (b : Block) (es : List (Event α)) :
    imgValues (Event.blockEv b :: es) = imgValues es := by
  simp [imgValues, List.filterMap_cons]

theorem layoutLoop_blockEvents {α : Type} (fails : α → Bool) :
    ∀ (bs : List Block) (imgs : List α) (i p : Nat),
      blockEvents (layoutLoop fails bs imgs i p) = bs := by
  intro bs
  induction bs with
  | nil => intro imgs i p; exact blockEvents_flatMap_img fails imgs
  | cons b bs ih =>
    intro imgs i p
    cases b with
    | heading lv tx =>
      rw [layoutLoop, blockEvents_cons_block, ih]
    | paragraph tx hh =>
      cases imgs with
      | nil =>
        rw [layoutLoop, blockEvents_cons_block, ih]
      | cons a as =>
        by_cases hcond : 0 < i ∧ (p + 1) % i = 0
        · rw [layoutLoop, if_pos hcond, blockEvents_cons_block, blockEvents_append,
            ih as i (p + 1), insertImageEv_eq]
          cases fails a <;> simp [blockEvents]
        · rw [layoutLoop, if_neg hcond, blockEvents_cons_block, ih]

theorem layoutLoop_imgValues {α : Type} (fails : α → Bool) :
    ∀ (bs : List Block) (imgs : List α) (i p : Nat),
      imgValues (layoutLoop fails bs imgs i p) = imgs.filter (fun a => !fails a) := by
  intro bs
  induction bs with
  | nil => intro imgs i p; exact imgValues_flatMap_img fails imgs
  | cons b bs ih =>
    intro imgs i p
    cases b with
    | heading lv tx =>
      rw [layoutLoop, imgValues_cons_block, ih]
    | paragraph tx hh =>
      cases imgs with
      | nil =>
        rw [layoutLoop, imgValues_cons_block, ih]
      | cons a as =>
        by_cases hcond : 0 < i ∧ (p + 1) % i = 0
        · rw [layoutLoop, if_pos hcond, imgValues_cons_block, imgValues_append,
            ih as i (p + 1), insertImageEv_eq, List.filter_cons]
          cases hfa : fails a <;> simp [imgValues]
        · rw [layoutLoop, if_neg hcond, imgValues_cons_block, ih, List.filter_cons]

/-- Events surviving a given image-failure oracle: block writes always, image
placements only when the load succeeds. -/
def keepEvent {α : Type} (fails : α → Bool) : Event α → Bool
  | .lead a => !fails a
  | .img a => !fails a
  | .blockEv _ => true

theorem flatMap_img_filter {α : Type} (fails : α → Bool) (imgs : List α) :
    imgs.flatMap (fun a => insertImageEv fails a)
      = (imgs.flatMap (fun a => insertImageEv (fun _ => false) a)).filter (keepEvent fails) := by
  induction imgs with
  | nil => simp
  | cons a as ih =>
    rw [List.flatMap_cons, List.flatMap_cons, List.filter_append, ← ih,
      insertImageEv_eq, insertImageEv_eq]
    cases hfa : fails a <;> simp [keepEvent, hfa]

theorem layoutLoop_filter {α : Type} (fails : α → Bool) :
    ∀ (bs : List Block) (imgs : List α) (i p : Nat),
      layoutLoop fails bs imgs i p
        = (layoutLoop (fun _ => false) bs imgs i p).filter (keepEvent fails) := by
  intro bs
  induction bs with
  | nil => intro imgs i p; exact flatMap_img_filter fails imgs
  | cons b bs ih =>
    intro imgs i p
    cases b with
    | heading lv tx =>
      rw [layoutLoop, layoutLoop, List.filter_cons]
      simp only [keepEvent, if_pos]
      rw [ih]
    | paragraph tx hh =>
      cases imgs with
      | nil =>
        rw [layoutLoop, layoutLoop, List.filter_cons]
        simp only [keepEvent, if_pos]
        rw [ih]
      | cons a as =>
        by_cases hcond : 0 < i ∧ (p + 1) % i = 0
        · rw [layoutLoop, if_pos hcond, layoutLoop, if_pos hcond, List.filter_cons]
          simp only [keepEvent, if_pos]
          rw [List.filter_append, ← ih, insertImageEv_eq, insertImageEv_eq]
          cases hfa : fails a <;> simp [keepEvent, hfa]
        · rw [layoutLoop, if_neg hcond, layoutLoop, if_neg hcond, List.filter_cons]
          simp only [keepEvent, if_pos]
          rw [ih]

theorem generatePdfRun_nil {α : Type} (fails : α → Bool) (blocks : List Block) :
    generatePdfRun fails blocks ([] : List α) = layoutLoop fails blocks [] 0 0 := rfl

theorem generatePdfRun_cons {α : Type} (fails : α → Bool) (blocks : List Block)
    (leadImg : α) (rest : List α) :
    generatePdfRun fails blocks (leadImg :: rest)
      = insertLeadEv fails leadImg ++
          layoutLoop fails blocks rest
            (if rest.isEmpty then 0 else max 1 (paragraphCount blocks / (rest.length + 1)))
            0 := rfl

/-- C3: with the image-load failure oracle `fails`, the render of
`generate_pdf` is total (no exception reaches the caller: every image error
is swallowed inside `_insert_image` by `except Exception: pass`), the failing
images are exactly the events dropped relative to the failure-free render
(so layout of the remaining blocks and images continues undisturbed), every
content block is still written, and exactly the successfully loading images
are placed, in order. -/
theorem claim_c3_image_failures_isolated {α : Type} (fails : α → Bool)
    (blocks : List Block) (images : List α) :
    generatePdfRun fails blocks images
        = (generatePdfLayout blocks images).filter (keepEvent fails) ∧
      blockEvents (generatePdfRun fails blocks images) = blocks ∧
      imgValues (generatePdfRun fails blocks images) = images.filter (fun a => !fails a) := by
  refine ⟨?_, ?_, ?_⟩
  · cases images with
    | nil =>
      rw [generatePdfLayout, generatePdfRun_nil, generatePdfRun_nil]
      exact layoutLoop_filter fails blocks [] 0 0
    | cons leadImg rest =>
      rw [generatePdfLayout, generatePdfRun_cons, generatePdfRun_cons, List.filter_append,
        ← layoutLoop_filter fails, insertLeadEv_eq fails, insertLeadEv_eq (fun _ => false)]
      cases hfa : fails leadImg <;> simp [keepEvent, hfa]
  · cases images with
    | nil =>
      rw [generatePdfRun_nil]
      exact layoutLoop_blockEvents fails blocks [] 0 0
    | cons leadImg rest =>
      rw [generatePdfRun_cons, blockEvents_append, layoutLoop_blockEvents fails,
        insertLeadEv_eq]
      cases fails leadImg <;> simp [blockEvents]
  · cases images with
    | nil =>
      rw [generatePdfRun_nil, layoutLoop_imgValues fails]
    | cons leadImg rest =>
      rw [generatePdfRun_cons, imgValues_append, layoutLoop_imgValues fails,
        insertLeadEv_eq, List.filter_cons]
      cases hfa : fails leadImg <;> simp [imgValues, hfa]

/-- C1: for an article with N paragraph blocks and a supplied image list with
K images remaining after the lead image, `generate_pdf` places the lead image
(the first of the list) before the content, computes the single interval
`max 1 (N / (K + 1))` and, after every `interval`-th paragraph, places the
next remaining image in input order (at most one per boundary); images still
remaining after the last block are appended at the end, with N paragraphs
before them.  The paragraph counts in front of the placed images are exactly
the multiples `interval, 2*interval, ...` up to `N`, truncated to K, padded
with N for the leftovers.  With no images remaining after the lead no
interval logic runs, and for N = 10, K = 3 the images land after paragraphs
2, 4 and 6. -/
theorem claim_c1_image_interleaving {α : Type} (blocks : List Block)
    (leadImg : α) (rest : List α) :
    (generatePdfLayout blocks (leadImg :: rest)).head? = some (Event.lead leadImg) ∧
    imgValues (generatePdfLayout blocks (leadImg :: rest)) = leadImg :: rest ∧
    blockEvents (generatePdfLayout blocks (leadImg :: rest)) = blocks ∧
    (rest = [] → imgParaCounts (generatePdfLayout blocks (leadImg :: rest)) 0 = []) ∧
    (rest ≠ [] →
      imgParaCounts (generatePdfLayout blocks (leadImg :: rest)) 0
        = ((List.range
              (paragraphCount blocks / max 1 (paragraphCount blocks / (rest.length + 1)))).map
            (fun j => (j + 1) * max 1 (paragraphCount blocks / (rest.length + 1)))).take
            rest.length
          ++ List.replicate
              (rest.length -
                paragraphCount blocks / max 1 (paragraphCount blocks / (rest.length + 1)))
              (paragraphCount blocks)) ∧
    imgParaCounts
        (generatePdfLayout (List.replicate 10 (Block.paragraph "p" none))
          ([0, 1, 2, 3] : List Nat)) 0
      = [2, 4, 6] := by
  have hlead : insertLeadEv (fun _ : α => false) leadImg = [Event.lead leadImg] := rfl
  refine ⟨?_, ?_, ?_, ?_, ?_, ?_⟩
  · rw [generatePdfLayout, generatePdfRun_cons, hlead]
    rfl
  · rw [generatePdfLayout, generatePdfRun_cons, imgValues_append,
      layoutLoop_imgValues, hlead]
    simp [imgValues]
  · rw [generatePdfLayout, generatePdfRun_cons, blockEvents_append,
      layoutLoop_blockEvents, hlead]
    simp [blockEvents]
  · intro hrest
    subst hrest
    rw [generatePdfLayout, generatePdfRun_cons, hlead]
    simp only [List.singleton_append, List.isEmpty_nil, if_true]
    show imgParaCounts (layoutLoop (fun _ => false) blocks [] 0 0) 0 = []
    exact layoutLoop_counts_noImgs blocks 0 0
  · intro hrest
    have hemp : rest.isEmpty = false := by
      cases rest with
      | nil => exact absurd rfl hrest
      | cons x xs => rfl
    set i := max 1 (paragraphCount blocks / (rest.length + 1)) with hidef
    have hi : 0 < i := Nat.lt_of_lt_of_le Nat.zero_lt_one (Nat.le_max_left 1 _)
    rw [generatePdfLayout, generatePdfRun_cons, hlead, hemp]
    simp only [List.singleton_append, Bool.false_eq_true, if_false]
    show imgParaCounts (layoutLoop (fun _ => false) blocks rest i 0) 0 = _
    rw [layoutLoop_counts i hi blocks rest 0, paraPositions_eq blocks 0]
    have hzero : (fun t : Nat => 0 + (t + 1)) = (fun t : Nat => t + 1) := by
      funext t
      omega
    rw [hzero, filter_range_mod i hi (paragraphCount blocks),
      List.length_map, List.length_range, Nat.zero_add]
  · rfl

/-- Witness for C1: ten paragraphs, lead image 9 and three remaining images;
the remaining images land after paragraphs 2, 4, 6. -/
theorem claim_c1_image_interleaving_witness :
    ([8, 7, 6] : List Nat) ≠ [] ∧
    imgParaCounts
        (generatePdfLayout (List.replicate 10 (Block.paragraph "p" none))
          ([9, 8, 7, 6] : List Nat)) 0 = [2, 4, 6] :=
  ⟨by decide,
    (claim_c1_image_interleaving (List.replicate 10 (Block.paragraph "p" none))
        9 [8, 7, 6]).2.2.2.2.1 (by decide)⟩

/-! ## Image scaling (`_insert_image`, lines 581-593) -/

/-- The size computation of `_insert_image`:
`img_width = min(img.width, max_width)`, `scale = img_width / img.width`,
`img_height = img.height * scale`. -/
def placedSize (w h m : ℚ) : ℚ × ℚ :=
  let imgWidth := min w m
  let scale := imgWidth / w
  (imgWidth, h * scale)

/-- C9: for an image of positive pixel width `w` and height `h` and any
`max_width` `m`, the placed width is `min w m` and the placed height is
`h * min w m / w`; the aspect ratio is preserved
(`height * w = h * width`), the image is never scaled up, an image already
narrower than `max_width` keeps its original dimensions, and a 2000x1000
image constrained to 500 is placed at 500x250. -/
theorem claim_c9_image_scaling (w h m : ℚ) (hw : 0 < w) (hh : 0 < h) :
    (placedSize w h m).1 = min w m ∧
    (placedSize w h m).2 = h * min w m / w ∧
    (placedSize w h m).2 * w = h * (placedSize w h m).1 ∧
    (placedSize w h m).1 ≤ w ∧
    (placedSize w h m).2 ≤ h ∧
    (w ≤ m → placedSize w h m = (w, h)) ∧
    placedSize 2000 1000 500 = (500, 250) := by
  have hw0 : w ≠ 0 := ne_of_gt hw
  refine ⟨rfl, ?_, ?_, ?_, ?_, ?_, ?_⟩
  · show h * (min w m / w) = h * min w m / w
    rw [mul_div_assoc]
  · show h * (min w m / w) * w = h * min w m
    rw [mul_div_assoc', div_mul_cancel₀ _ hw0]
  · exact min_le_left w m
  · show h * (min w m / w) ≤ h
    have hle : min w m / w ≤ 1 := (div_le_one hw).mpr (min_le_left w m)
    calc h * (min w m / w) ≤ h * 1 := by
          apply mul_le_mul_of_nonneg_left hle (le_of_lt hh)
      _ = h := mul_one h
  · intro hwm
    show (min w m, h * (min w m / w)) = (w, h)
    rw [min_eq_left hwm, div_self hw0, mul_one]
  · show ((min (2000 : ℚ) 500), 1000 * (min (2000 : ℚ) 500 / 2000)) = (500, 250)
    norm_num [min_def]

/-- Witness for C9 at the concrete sizes of the spec's example. -/
theorem claim_c9_image_scaling_witness :
    (0 : ℚ) < 2000 ∧ (0 : ℚ) < 1000 ∧ placedSize 2000 1000 500 = (500, 250) :=
  ⟨by norm_num, by norm_num,
    (claim_c9_image_scaling 2000 1000 500 (by norm_num) (by norm_num)).2.2.2.2.2.2⟩

/-! ## Heading sizes (`HEADING_SIZES`, lines 24-31; `generate_pdf`, lines 488-494) -/

/-- The `HEADING_SIZES` table. -/
def HEADING_SIZES : List (Nat × Nat) := [(1, 16), (2, 14), (3, 13), (4, 12), (5, 11), (6, 11)]

/-- `HEADING_SIZES.get(block.level, 12)` (line 490). -/
def headingSize (level : Nat) : Nat := (HEADING_SIZES.lookup level).getD 12

/-- The heading font call (line 491):
`pdf.set_font(pdf.font_family_name, "B", size)`. -/
def headingFont (level : Nat) : String × Nat := ("B", headingSize level)

/-- C5 counterexample: the claim says every level greater than 6 is clamped
to the smallest (level-6) size 11, but `HEADING_SIZES.get(level, 12)` falls
back to the default 12 for level 7. -/
theorem claim_c5_counterexample :
    headingSize 7 = 12 ∧ headingSize 6 = 11 ∧ headingSize 7 ≠ headingSize 6 := by
  decide

/-- C5 amended: every heading is written bold at the size of a fixed table of
six sizes, level 1 mapping to the largest (16) and level 6 to the smallest
(11); every level greater than 6 falls back to the default size 12 (not to
the smallest size). -/
theorem claim_c5_heading_sizes_amended :
    (∀ level, (headingFont level).1 = "B" ∧ (headingFont level).2 = headingSize level) ∧
    (headingSize 1 = 16 ∧ headingSize 2 = 14 ∧ headingSize 3 = 13 ∧
      headingSize 4 = 12 ∧ headingSize 5 = 11 ∧ headingSize 6 = 11) ∧
    (∀ level, 1 ≤ level → level ≤ 6 → 11 ≤ headingSize level ∧ headingSize level ≤ 16) ∧
    (∀ level, 1 ≤ level → level ≤ 5 → headingSize (level + 1) ≤ headingSize level) ∧
    (∀ level, 6 < level → headingSize level = 12) := by
  refine ⟨fun level => ⟨rfl, rfl⟩, by decide, ?_, ?_, ?_⟩
  · intro level h1 h6
    interval_cases level <;> decide
  · intro level h1 h5
    interval_cases level <;> decide
  · intro level hl
    have h1 : (level == 1) = false := by rw [beq_eq_false_iff_ne]; omega
    have h2 : (level == 2) = false := by rw [beq_eq_false_iff_ne]; omega
    have h3 : (level == 3) = false := by rw [beq_eq_false_iff_ne]; omega
    have h4 : (level == 4) = false := by rw [beq_eq_false_iff_ne]; omega
    have h5 : (level == 5) = false := by rw [beq_eq_false_iff_ne]; omega
    have h6 : (level == 6) = false := by rw [beq_eq_false_iff_ne]; omega
    simp [headingSize, HEADING_SIZES, List.lookup, h1, h2, h3, h4, h5, h6]

/-- Witness for the amended C5: level 7 falls back to size 12. -/
theorem claim_c5_heading_sizes_amended_witness :
    6 < 7 ∧ headingSize 7 = 12 :=
  ⟨by decide, claim_c5_heading_sizes_amended.2.2.2.2 7 (by decide)⟩

/-! ## Font registry and resolution (`pdf_generator.py`, lines 12-417)

The filesystem is abstracted by an existence oracle `ex : String → Bool`
(`Path(path).exists()`); everything else is embedded directly from the
module-level registry and the resolution functions. -/

/-- `FontFamily` dataclass (lines 12-21). -/
structure FontFamily where
  name : String
  display_name : String
  regular : List String
  bold : List String
  italic : List String
  bold_italic : List String
deriving DecidableEq, Repr

/-- The `noto-sans` entry of `FONT_FAMILIES` (lines 43-66). -/
def notoSans : FontFamily :=
  { name := "noto-sans", display_name := "Noto Sans"
    regular := ["/usr/share/fonts/google-noto-vf/NotoSans[wght].ttf",
      "/usr/share/fonts/google-noto/NotoSans-Regular.ttf",
      "/usr/share/fonts/noto/NotoSans-Regular.ttf"]
    bold := ["/usr/share/fonts/google-noto-vf/NotoSans[wght].ttf",
      "/usr/share/fonts/google-noto/NotoSans-Bold.ttf",
      "/usr/share/fonts/noto/NotoSans-Bold.ttf"]
    italic := ["/usr/share/fonts/google-noto-vf/NotoSans-Italic[wght].ttf",
      "/usr/share/fonts/google-noto/NotoSans-Italic.ttf",
      "/usr/share/fonts/noto/NotoSans-Italic.ttf"]
    bold_italic := ["/usr/share/fonts/google-noto-vf/NotoSans-Italic[wght].ttf",
      "/usr/share/fonts/google-noto/NotoSans-BoldItalic.ttf",
      "/usr/share/fonts/noto/NotoSans-BoldItalic.ttf"] }

/-- The `noto-serif` entry (lines 67-90). -/
def notoSerif : FontFamily :=
  { name := "noto-serif", display_name := "Noto Serif"
    regular := ["/usr/share/fonts/google-noto-vf/NotoSerif[wght].ttf",
      "/usr/share/fonts/google-noto/NotoSerif-Regular.ttf",
      "/usr/share/fonts/noto/NotoSerif-Regular.ttf"]
    bold := ["/usr/share/fonts/google-noto-vf/NotoSerif[wght].ttf",
      "/usr/share/fonts/google-noto/NotoSerif-Bold.ttf",
      "/usr/share/fonts/noto/NotoSerif-Bold.ttf"]
    italic := ["/usr/share/fonts/google-noto-vf/NotoSerif-Italic[wght].ttf",
      "/usr/share/fonts/google-noto/NotoSerif-Italic.ttf",
      "/usr/share/fonts/noto/NotoSerif-Italic.ttf"]
    bold_italic := ["/usr/share/fonts/google-noto-vf/NotoSerif-Italic[wght].ttf",
      "/usr/share/fonts/google-noto/NotoSerif-BoldItalic.ttf",
      "/usr/share/fonts/noto/NotoSerif-BoldItalic.ttf"] }

/-- The `liberation-sans` entry (lines 91-114). -/
def liberationSans : FontFamily :=
  { name := "liberation-sans", display_name := "Liberation Sans"
    regular := ["/usr/share/fonts/liberation-sans/LiberationSans-Regular.ttf",
      "/usr/share/fonts/liberation-sans-fonts/LiberationSans-Regular.ttf",
      "/usr/share/fonts/truetype/liberation/LiberationSans-Regular.ttf"]
    bold := ["/usr/share/fonts/liberation-sans/LiberationSans-Bold.ttf",
      "/usr/share/fonts/liberation-sans-fonts/LiberationSans-Bold.ttf",
      "/usr/share/fonts/truetype/liberation/LiberationSans-Bold.ttf"]
    italic := ["/usr/share/fonts/liberation-sans/LiberationSans-Italic.ttf",
      "/usr/share/fonts/liberation-sans-fonts/LiberationSans-Italic.ttf",
      "/usr/share/fonts/truetype/liberation/LiberationSans-Italic.ttf"]
    bold_italic := ["/usr/share/fonts/liberation-sans/LiberationSans-BoldItalic.ttf",
      "/usr/share/fonts/liberation-sans-fonts/LiberationSans-BoldItalic.ttf",
      "/usr/share/fonts/truetype/liberation/LiberationSans-BoldItalic.ttf"] }

/-- The `liberation-serif` entry (lines 115-138). -/
def liberationSerif : FontFamily :=
  { name := "liberation-serif", display_name := "Liberation Serif"
    regular := ["/usr/share/fonts/liberation-serif/LiberationSerif-Regular.ttf",
      "/usr/share/fonts/liberation-serif-fonts/LiberationSerif-Regular.ttf",
      "/usr/share/fonts/truetype/liberation/LiberationSerif-Regular.ttf"]
    bold := ["/usr/share/fonts/liberation-serif/LiberationSerif-Bold.ttf",
      "/usr/share/fonts/liberation-serif-fonts/LiberationSerif-Bold.ttf",
      "/usr/share/fonts/truetype/liberation/LiberationSerif-Bold.ttf"]
    italic := ["/usr/share/fonts/liberation-serif/LiberationSerif-Italic.ttf",
      "/usr/share/fonts/liberation-serif-fonts/LiberationSerif-Italic.ttf",
      "/usr/share/fonts/truetype/liberation/LiberationSerif-Italic.ttf"]
    bold_italic := ["/usr/share/fonts/liberation-serif/LiberationSerif-BoldItalic.ttf",
      "/usr/share/fonts/liberation-serif-fonts/LiberationSerif-BoldItalic.ttf",
      "/usr/share/fonts/truetype/liberation/LiberationSerif-BoldItalic.ttf"] }

/-- The `free-sans` entry (lines 139-158). -/
def freeSans : FontFamily :=
  { name := "free-sans", display_name := "Free Sans"
    regular := ["/usr/share/fonts/gnu-free/FreeSans.ttf",
      "/usr/share/fonts/truetype/freefont/FreeSans.ttf"]
    bold := ["/usr/share/fonts/gnu-free/FreeSansBold.ttf",
      "/usr/share/fonts/truetype/freefont/FreeSansBold.ttf"]
    italic := ["/usr/share/fonts/gnu-free/FreeSansOblique.ttf",
      "/usr/share/fonts/truetype/freefont/FreeSansOblique.ttf"]
    bold_italic := ["/usr/share/fonts/gnu-free/FreeSansBoldOblique.ttf",
      "/usr/share/fonts/truetype/freefont/FreeSansBoldOblique.ttf"] }

/-- The `free-serif` entry (lines 159-178). -/
def freeSerif : FontFamily :=
  { name := "free-serif", display_name := "Free Serif"
    regular := ["/usr/share/fonts/gnu-free/FreeSerif.ttf",
      "/usr/share/fonts/truetype/freefont/FreeSerif.ttf"]
    bold := ["/usr/share/fonts/gnu-free/FreeSerifBold.ttf",
      "/usr/share/fonts/truetype/freefont/FreeSerifBold.ttf"]
    italic := ["/usr/share/fonts/gnu-free/FreeSerifItalic.ttf",
      "/usr/share/fonts/truetype/freefont/FreeSerifItalic.ttf"]
    bold_italic := ["/usr/share/fonts/gnu-free/FreeSerifBoldItalic.ttf",
      "/usr/share/fonts/truetype/freefont/FreeSerifBoldItalic.ttf"] }

/-- The `dejavu-sans` entry (lines 179-210). -/
def dejavuSans : FontFamily :=
  { name := "dejavu-sans", display_name := "DejaVu Sans"
    regular := ["/usr/share/fonts/truetype/dejavu/DejaVuSans.ttf",
      "/usr/share/fonts/dejavu-sans-fonts/DejaVuSans.ttf",
      "/usr/share/fonts/dejavu/DejaVuSans.ttf",
      "/usr/share/fonts/TTF/DejaVuSans.ttf",
      "C:/Windows/Fonts/DejaVuSans.ttf"]
    bold := ["/usr/share/fonts/truetype/dejavu/DejaVuSans-Bold.ttf",
      "/usr/share/fonts/dejavu-sans-fonts/DejaVuSans-Bold.ttf",
      "/usr/share/fonts/dejavu/DejaVuSans-Bold.ttf",
      "/usr/share/fonts/TTF/DejaVuSans-Bold.ttf",
      "C:/Windows/Fonts/DejaVuSans-Bold.ttf"]
    italic := ["/usr/share/fonts/truetype/dejavu/DejaVuSans-Oblique.ttf",
      "/usr/share/fonts/dejavu-sans-fonts/DejaVuSans-Oblique.ttf",
      "/usr/share/fonts/dejavu/DejaVuSans-Oblique.ttf",
      "/usr/share/fonts/TTF/DejaVuSans-Oblique.ttf",
      "C:/Windows/Fonts/DejaVuSans-Oblique.ttf"]
    bold_italic := ["/usr/share/fonts/truetype/dejavu/DejaVuSans-BoldOblique.ttf",
      "/usr/share/fonts/dejavu-sans-fonts/DejaVuSans-BoldOblique.ttf",
      "/usr/share/fonts/dejavu/DejaVuSans-BoldOblique.ttf",
      "/usr/share/fonts/TTF/DejaVuSans-BoldOblique.ttf",
      "C:/Windows/Fonts/DejaVuSans-BoldOblique.ttf"] }

/-- The `dejavu-serif` entry (lines 211-242). -/
def dejavuSerif : FontFamily :=
  { name := "dejavu-serif", display_name := "DejaVu Serif"
    regular := ["/usr/share/fonts/truetype/dejavu/DejaVuSerif.ttf",
      "/usr/share/fonts/dejavu-serif-fonts/DejaVuSerif.ttf",
      "/usr/share/fonts/dejavu/DejaVuSerif.ttf",
      "/usr/share/fonts/TTF/DejaVuSerif.ttf",
      "C:/Windows/Fonts/DejaVuSerif.ttf"]
    bold := ["/usr/share/fonts/truetype/dejavu/DejaVuSerif-Bold.ttf",
      "/usr/share/fonts/dejavu-serif-fonts/DejaVuSerif-Bold.ttf",
      "/usr/share/fonts/dejavu/DejaVuSerif-Bold.ttf",
      "/usr/share/fonts/TTF/DejaVuSerif-Bold.ttf",
      "C:/Windows/Fonts/DejaVuSerif-Bold.ttf"]
    italic := ["/usr/share/fonts/truetype/dejavu/DejaVuSerif-Italic.ttf",
      "/usr/share/fonts/dejavu-serif-fonts/DejaVuSerif-Italic.ttf",
      "/usr/share/fonts/dejavu/DejaVuSerif-Italic.ttf",
      "/usr/share/fonts/TTF/DejaVuSerif-Italic.ttf",
      "C:/Windows/Fonts/DejaVuSerif-Italic.ttf"]
    bold_italic := ["/usr/share/fonts/truetype/dejavu/DejaVuSerif-BoldItalic.ttf",
      "/usr/share/fonts/dejavu-serif-fonts/DejaVuSerif-BoldItalic.ttf",
      "/usr/share/fonts/dejavu/DejaVuSerif-BoldItalic.ttf",
      "/usr/share/fonts/TTF/DejaVuSerif-BoldItalic.ttf",
      "C:/Windows/Fonts/DejaVuSerif-BoldItalic.ttf"] }

/-- The `FONT_FAMILIES` registry (lines 42-243), an insertion-ordered dict. -/
def FONT_FAMILIES : List (String × FontFamily) :=
  [("noto-sans", notoSans), ("noto-serif", notoSerif),
   ("liberation-sans", liberationSans), ("liberation-serif", liberationSerif),
   ("free-sans", freeSans), ("free-serif", freeSerif),
   ("dejavu-sans", dejavuSans), ("dejavu-serif", dejavuSerif)]

/-- `find_font` (lines 246-251): first existing path. -/
def findFont (paths : List String) (ex : String → Bool) : Option String :=
  paths.find? ex

/-- Substring test on character lists (for `"[wght]" in font_path`). -/
def listStarts : List Char → List Char → Bool
  | [], _ => true
  | _ :: _, [] => false
  | p :: ps, c :: cs => p == c && listStarts ps cs

/-- Whether `pat` occurs as a contiguous run in the list. -/
def listHas (pat : List Char) : List Char → Bool
  | [] => listStarts pat []
  | c :: cs => listStarts pat (c :: cs) || listHas pat cs

/-- `is_variable_font` (lines 254-265): `"[wght]" in font_path`. -/
def isVariableFont (fontPath : String) : Bool :=
  listHas "[wght]".data fontPath.data

/-- `find_available_fonts` (lines 273-283): names of registry families whose
regular candidate list has an existing file, in registry order. -/
def findAvailableFonts (ex : String → Bool) : List String :=
  (FONT_FAMILIES.filter (fun nf => (findFont nf.2.regular ex).isSome)).map (fun nf => nf.1)

/-- The error kinds of font resolution (spec section 7): `NoFontsAvailable`
and `FontNotInstalled` are `RuntimeError`s, `UnknownFontFamily` the
`ValueError` of `get_font_family`. -/
inductive FontError
  | noFontsAvailable
  | unknownFontFamily
  | fontNotInstalled
deriving DecidableEq, Repr

/-- `get_default_font` (lines 286-305). -/
def getDefaultFont (ex : String → Bool) : Except FontError String :=
  match findAvailableFonts ex with
  | [] => .error .noFontsAvailable
  | n :: _ => .ok n

/-- The named lookup part of `get_font_family` (lines 324-339). -/
def getFontFamilyNamed (n : String) (ex : String → Bool) : Except FontError FontFamily :=
  match FONT_FAMILIES.lookup n with
  | none => .error .unknownFontFamily
  | some fam =>
    if (findFont fam.regular ex).isSome then .ok fam else .error .fontNotInstalled

/-- `get_font_family` (lines 308-339): `None` resolves through
`get_default_font` first. -/
def getFontFamily (name? : Option String) (ex : String → Bool) : Except FontError FontFamily :=
  match name? with
  | none =>
    match getDefaultFont ex with
    | .error e => .error e
    | .ok n => getFontFamilyNamed n ex
  | some n => getFontFamilyNamed n ex

/-- Generic form of `find_available_fonts` over any registry list. -/
def availOf (fs : List (String × FontFamily)) (ex : String → Bool) : List String :=
  (fs.filter (fun nf => (findFont nf.2.regular ex).isSome)).map (fun nf => nf.1)

theorem availOf_subset_keys (fs : List (String × FontFamily)) (ex : String → Bool) :
    ∀ x ∈ availOf fs ex, x ∈ fs.map Prod.fst := by
  intro x hx
  unfold availOf at hx
  rw [List.mem_map] at hx
  obtain ⟨nf, hnf, hfst⟩ := hx
  rw [List.mem_filter] at hnf
  rw [List.mem_map]
  exact ⟨nf, hnf.1, hfst⟩

theorem availOf_head (fs : List (String × FontFamily)) (ex : String → Bool)
    (hnd : (fs.map Prod.fst).Nodup) :
    ∀ n ns, availOf fs ex = n :: ns →
      ∃ fam, fs.lookup n = some fam ∧ (findFont fam.regular ex).isSome := by
  induction fs with
  | nil => intro n ns h; simp [availOf] at h
  | cons kf fs ih =>
    intro n ns h
    obtain ⟨k, f⟩ := kf
    rw [List.map_cons, List.nodup_cons] at hnd
    by_cases hP : (findFont f.regular ex).isSome
    · unfold availOf at h
      rw [List.filter_cons] at h
      simp only [hP, if_true, List.map_cons, List.cons.injEq] at h
      obtain ⟨hkn, _⟩ := h
      subst hkn
      refine ⟨f, ?_, hP⟩
      simp [List.lookup]
    · unfold availOf at h
      rw [List.filter_cons] at h
      simp only [hP, if_false, Bool.false_eq_true] at h
      have h2 : availOf fs ex = n :: ns := h
      obtain ⟨fam, hlook, hsome⟩ := ih hnd.2 n ns h2
      have hn_mem : n ∈ fs.map Prod.fst := by
        apply availOf_subset_keys fs ex
        rw [h2]
        exact List.mem_cons_self n ns
      have hkn : k ≠ n := fun hk => hnd.1 (hk ▸ hn_mem)
      refine ⟨fam, ?_, hsome⟩
      have hbeq : (n == k) = false := by
        rw [beq_eq_false_iff_ne]
        exact fun hk => hkn hk.symm
      simp [List.lookup, hbeq, hlook]

/-- C6: when the requested family name is `None`, resolution selects the
first entry of the available-fonts list (registered families whose regular
candidate exists, in registry definition order); it is a pure function of
the filesystem oracle (deterministic over an unchanged filesystem), and it
fails with `NoFontsAvailable` (a `RuntimeError`) exactly when the
available-fonts list is empty. -/
theorem claim_c6_default_font_resolution (ex : String → Bool) :
    (findAvailableFonts ex = [] →
      getFontFamily none ex = .error .noFontsAvailable) ∧
    (∀ n ns, findAvailableFonts ex = n :: ns →
      ∃ fam, getFontFamily none ex = .ok fam ∧ FONT_FAMILIES.lookup n = some fam ∧
        (findFont fam.regular ex).isSome) ∧
    (∀ ex2 : String → Bool, (∀ p, ex p = ex2 p) →
      getFontFamily none ex = getFontFamily none ex2) := by
  refine ⟨?_, ?_, ?_⟩
  · intro h
    unfold getFontFamily getDefaultFont
    rw [h]
  · intro n ns h
    have hnd : (FONT_FAMILIES.map Prod.fst).Nodup := by decide
    obtain ⟨fam, hlook, hsome⟩ := availOf_head FONT_FAMILIES ex hnd n ns h
    refine ⟨fam, ?_, hlook, hsome⟩
    unfold getFontFamily getDefaultFont
    rw [h]
    show getFontFamilyNamed n ex = Except.ok fam
    unfold getFontFamilyNamed
    rw [hlook]
    simp [hsome]
  · intro ex2 hpt
    rw [funext hpt]

/-- Witness for C6: a filesystem where exactly `FreeSans.ttf` exists; the
first (and only) available family is `free-sans` and resolution picks it. -/
theorem claim_c6_default_font_resolution_witness :
    findAvailableFonts (fun p => p == "/usr/share/fonts/gnu-free/FreeSans.ttf")
        = ["free-sans"] ∧
      ∃ fam,
        getFontFamily none (fun p => p == "/usr/share/fonts/gnu-free/FreeSans.ttf")
            = .ok fam ∧
          FONT_FAMILIES.lookup "free-sans" = some fam ∧
          (findFont fam.regular
              (fun p => p == "/usr/share/fonts/gnu-free/FreeSans.ttf")).isSome :=
  ⟨by decide,
    (claim_c6_default_font_resolution
        (fun p => p == "/usr/share/fonts/gnu-free/FreeSans.ttf")).2.1
      "free-sans" [] (by decide)⟩

/-- `ArticlePDF._setup_fonts` (lines 355-384): resolve each style's candidate
list independently; fail (`RuntimeError`) iff no regular candidate exists;
call `add_font` for the regular style and for each optional style whose
candidate list has an existing file.  Result: the list of
`(style, font_path)` registrations made, in call order. -/
def setupFonts (fam : FontFamily) (ex : String → Bool) :
    Except Unit (List (String × String)) :=
  match findFont fam.regular ex with
  | none => .error ()
  | some reg =>
    .ok ([("", reg)]
      ++ (match findFont fam.bold ex with
          | some b => [("B", b)]
          | none => [])
      ++ (match findFont fam.italic ex with
          | some it => [("I", it)]
          | none => [])
      ++ (match findFont fam.bold_italic ex with
          | some bi => [("BI", bi)]
          | none => []))

/-- C4 counterexample: on a filesystem where only `FreeSans.ttf` (the regular
file of `free-sans`) exists, font setup succeeds but registers only the
regular style: no bold registration exists at all — the missing bold style
is *not* bound to the regular font file as the claim states. -/
theorem claim_c4_counterexample :
    setupFonts freeSans (fun p => p == "/usr/share/fonts/gnu-free/FreeSans.ttf")
        = .ok [("", "/usr/share/fonts/gnu-free/FreeSans.ttf")] ∧
      (setupFonts freeSans
          (fun p => p == "/usr/share/fonts/gnu-free/FreeSans.ttf")).map
          (fun l => l.lookup "B")
        = .ok none := by
  exact ⟨rfl, rfl⟩

/-- C4 amended: font setup succeeds exactly when some regular-style candidate
exists; each of the bold/italic/bold-italic styles is registered iff one of
its own candidates exists (with the first existing candidate), and a style
none of whose candidates exist is skipped entirely — it is not substituted
by the regular file, so a later request for that logical style is left to
the rendering backend unmitigated. -/
theorem claim_c4_missing_style_amended (fam : FontFamily) (ex : String → Bool) :
    (findFont fam.regular ex = none → setupFonts fam ex = .error ()) ∧
    (∀ reg, findFont fam.regular ex = some reg →
      ∃ l, setupFonts fam ex = .ok l ∧
        l.lookup "" = some reg ∧
        l.lookup "B" = findFont fam.bold ex ∧
        l.lookup "I" = findFont fam.italic ex ∧
        l.lookup "BI" = findFont fam.bold_italic ex) := by
  constructor
  · intro h
    unfold setupFonts
    rw [h]
  · intro reg hreg
    unfold setupFonts
    rw [hreg]
    refine ⟨_, rfl, ?_, ?_, ?_⟩ <;>
      cases hb : findFont fam.bold ex <;>
        cases hi2 : findFont fam.italic ex <;>
          cases hbi : findFont fam.bold_italic ex <;>
            simp [List.lookup]

/-- Witness for the amended C4: only the regular file of `free-sans` exists;
setup succeeds, the regular style is bound to it, and no bold, italic or
bold-italic registration is made. -/
theorem claim_c4_missing_style_amended_witness :
    ∃ l,
      setupFonts freeSans (fun p => p == "/usr/share/fonts/gnu-free/FreeSans.ttf")
          = .ok l ∧
        l.lookup "" = some "/usr/share/fonts/gnu-free/FreeSans.ttf" ∧
        l.lookup "B" = findFont freeSans.bold
          (fun p => p == "/usr/share/fonts/gnu-free/FreeSans.ttf") ∧
        l.lookup "I" = findFont freeSans.italic
          (fun p => p == "/usr/share/fonts/gnu-free/FreeSans.ttf") ∧
        l.lookup "BI" = findFont freeSans.bold_italic
          (fun p => p == "/usr/share/fonts/gnu-free/FreeSans.ttf") :=
  (claim_c4_missing_style_amended freeSans
      (fun p => p == "/usr/share/fonts/gnu-free/FreeSans.ttf")).2
    "/usr/share/fonts/gnu-free/FreeSans.ttf" (by decide)

/-- The exception kinds relevant to `_add_font_with_variations`: the two
caught by its `except (TypeError, AttributeError)` clause, and any other
exception the backend may raise. -/
inductive PyExc
  | typeError
  | attributeError
  | otherExc
deriving DecidableEq, Repr

/-- Outcome kinds of `_add_font_with_variations`: an exception propagating
uncaught, or the `RuntimeError` raised when the static fallback also fails. -/
inductive FontAddError
  | uncaught (e : PyExc)
  | runtimeError
deriving DecidableEq, Repr

/-- `ArticlePDF._add_font_with_variations` (lines 386-417).  The backend
`self.add_font` call is the oracle `load`: `load true` is the variable-font
call (with the `variations` parameter), `load false` the static call;
`none` means success.  Returns the trace of `add_font` calls made (`true` =
with variations) together with the outcome: the whole `try` body is guarded
by `except (TypeError, AttributeError)`, whose handler retries a static
`add_font` and converts any exception of that retry into a `RuntimeError`;
any other exception of the first call propagates uncaught. -/
def addFontWithVariations (fontPath : String) (load : Bool → Option PyExc) :
    List Bool × Except FontAddError Unit :=
  let firstVariations := isVariableFont fontPath
  match load firstVariations with
  | none => ([firstVariations], .ok ())
  | some e =>
    if e = .typeError ∨ e = .attributeError then
      match load false with
      | none => ([firstVariations, false], .ok ())
      | some _ => ([firstVariations, false], .error .runtimeError)
    else ([firstVariations], .error (.uncaught e))

/-- C10 counterexample: for the variable font
`NotoSans[wght].ttf`, a load error that is not a `TypeError` or
`AttributeError` (e.g. an `FPDFException` for a corrupt file) is *not*
recovered: no static fallback call is made (the trace has a single
with-variations call) and the raw exception propagates instead of a fatal
`RuntimeError` after one fallback. -/
theorem claim_c10_counterexample :
    isVariableFont "/usr/share/fonts/google-noto-vf/NotoSans[wght].ttf" = true ∧
    addFontWithVariations "/usr/share/fonts/google-noto-vf/NotoSans[wght].ttf"
        (fun _ => some .otherExc)
      = ([true], .error (.uncaught .otherExc)) := by
  exact ⟨rfl, rfl⟩

/-- C10 amended: for a font path tagged variable (it contains `[wght]`), a
`TypeError` or `AttributeError` during the variable-font load is recovered
by falling back exactly once to a static (non-variable) load of the same
file, and if that static attempt also fails (with any exception) the
failure escalates as a fatal `RuntimeError`; any *other* exception of the
variable-font load propagates immediately, with no fallback attempt. -/
theorem claim_c10_variable_font_fallback_amended (fontPath : String)
    (load : Bool → Option PyExc) (hvar : isVariableFont fontPath = true) :
    (load true = none →
      addFontWithVariations fontPath load = ([true], .ok ())) ∧
    (∀ e, load true = some e → (e = .typeError ∨ e = .attributeError) →
      (load false = none →
        addFontWithVariations fontPath load = ([true, false], .ok ())) ∧
      (∀ e2, load false = some e2 →
        addFontWithVariations fontPath load = ([true, false], .error .runtimeError))) ∧
    (∀ e, load true = some e → ¬(e = .typeError ∨ e = .attributeError) →
      addFontWithVariations fontPath load = ([true], .error (.uncaught e))) := by
  refine ⟨?_, ?_, ?_⟩
  · intro h
    unfold addFontWithVariations
    rw [hvar]
    simp only [h]
  · intro e he hcaught
    constructor
    · intro h0
      unfold addFontWithVariations
      rw [hvar]
      simp only [he, h0]
      simp [hcaught]
    · intro e2 h2
      unfold addFontWithVariations
      rw [hvar]
      simp only [he, h2]
      simp [hcaught]
  · intro e he hother
    unfold addFontWithVariations
    rw [hvar]
    simp only [he]
    simp [hother]

/-- Witness for the amended C10: the variable Noto Sans path with a
`TypeError` on the variations call and a succeeding static call — the
fallback happens exactly once and succeeds. -/
theorem claim_c10_variable_font_fallback_amended_witness :
    addFontWithVariations "/usr/share/fonts/google-noto-vf/NotoSans[wght].ttf"
        (fun b => if b then some .typeError else none)
      = ([true, false], .ok ()) :=
  ((claim_c10_variable_font_fallback_amended
        "/usr/share/fonts/google-noto-vf/NotoSans[wght].ttf"
        (fun b => if b then some .typeError else none) (by rfl)).2.1
      .typeError (by rfl) (Or.inl rfl)).1 (by rfl)
